import Mathlib

/-!
Verification of the z80_undead Z80 emulator core against its specification.

The development shallowly embeds the Rust sources:
* `src/cpu/core.rs`       — the CPU state record and memory/register-pair helpers;
* `src/cpu/flags.rs`      — the packed F register and `set_flag`/`get_flag`;
* `src/cpu/instructions/arithmetic.rs`      — ADD/ADC/SUB/SBC/INC/DEC/DAA and flag updates;
* `src/cpu/instructions/bit_manipulation.rs` — rotates/shifts and their flag updates;
* `src/cpu/instructions/block_operations.rs` — LDI/LDIR;
* `src/cpu/interrupts.rs` — NMI/INT acceptance;
* `src/event/mod.rs`      — the event queue;
* `src/cpu/mod.rs` with `src/memory/mod.rs` and `src/cpu/instruction.rs`
                          — the fetch/decode/execute `step` loop;
* `src/cpu/decoder.rs` with `src/cpu/tables.rs` — the prefix decoder and opcode tables.

Machine integers are modelled as `Nat` with explicit reductions: `% 256` for
`u8` casts, `% 65536` for `u16` casts; `x >> 8` on a `u16` becomes `x / 256`,
`x & 0x0F` on a byte becomes `x % 16`, and the `high << 8 | low` pair
composition (with `high`, `low` bytes) becomes `high * 256 + low`.  Bitwise
masks on the packed flag register are kept as genuine `&&&`/`|||`/`^^^`.
-/

namespace Z80

/-- `u8` truncating cast (`as u8` in the source). -/
def u8 (n : Nat) : Nat := n % 256

/-- `u16` truncating cast (`as u16` on wide values in the source). -/
def u16 (n : Nat) : Nat := n % 65536

/-- `u16::wrapping_add`. -/
def wadd16 (x y : Nat) : Nat := (x + y) % 65536

/-- `u16::wrapping_sub` (total on `Nat`; agrees with the Rust one on 16-bit inputs). -/
def wsub16 (x y : Nat) : Nat := (x % 65536 + (65536 - y % 65536)) % 65536

/-- `u8::wrapping_add`. -/
def wadd8 (x y : Nat) : Nat := (x + y) % 256

/-- `u8::wrapping_sub` (total on `Nat`; agrees with the Rust one on 8-bit inputs). -/
def wsub8 (x y : Nat) : Nat := (x % 256 + (256 - y % 256)) % 256

/-- Error taxonomy from `src/lib.rs` (`EmulatorError`). -/
inductive EmulatorError where
  | MemoryError (address : Nat)
  | InvalidOpcode (opcode : Nat)
  | SystemError (msg : String)
  | EventError (msg : String)
  deriving DecidableEq, Repr

/-! ## The CPU state of `src/cpu/core.rs`

The 64KB `Vec<u8>` memory is modelled as a total function from addresses to
bytes; all reads apply the `u16` address reduction that the Rust `u16` type
guarantees. -/

/-- `Cpu` from `src/cpu/core.rs`. -/
structure Cpu where
  a : Nat
  b : Nat
  c : Nat
  d : Nat
  e : Nat
  h : Nat
  i : Nat
  l : Nat
  f : Nat
  pc : Nat
  sp : Nat
  ix : Nat
  iy : Nat
  di : Nat
  a_alt : Nat
  b_alt : Nat
  c_alt : Nat
  d_alt : Nat
  e_alt : Nat
  h_alt : Nat
  l_alt : Nat
  f_alt : Nat
  iff1 : Bool
  iff2 : Bool
  im : Nat
  memory : Nat → Nat
  halted : Bool
  interrupt_mode : Nat

/-- `Cpu::new` (`core.rs`): all registers zero, 64KB of zeroed memory. -/
def Cpu.new : Cpu where
  a := 0
  b := 0
  c := 0
  d := 0
  e := 0
  h := 0
  i := 0
  l := 0
  f := 0
  pc := 0
  sp := 0
  ix := 0
  iy := 0
  di := 0
  a_alt := 0
  b_alt := 0
  c_alt := 0
  d_alt := 0
  e_alt := 0
  h_alt := 0
  l_alt := 0
  f_alt := 0
  iff1 := false
  iff2 := false
  im := 0
  memory := fun _ => 0
  halted := false
  interrupt_mode := 0

/-- `Cpu::read_byte`. -/
def read_byte (cpu : Cpu) (address : Nat) : Nat := cpu.memory (u16 address)

/-- `Cpu::write_byte`. -/
def write_byte (cpu : Cpu) (address value : Nat) : Cpu :=
  { cpu with memory := fun x => if x = u16 address then u8 value else cpu.memory x }

/-- `Cpu::write_word`: low byte at `address`, high byte at `address+1`. -/
def write_word (cpu : Cpu) (address value : Nat) : Cpu :=
  write_byte (write_byte cpu address (value % 256)) (wadd16 address 1) (value / 256)

/-- `Cpu::read_word`. -/
def read_word (cpu : Cpu) (address : Nat) : Nat :=
  read_byte cpu address + 256 * read_byte cpu (wadd16 address 1)

/-- `Cpu::get_hl`: `(h as u16) << 8 | l`. -/
def get_hl (cpu : Cpu) : Nat := cpu.h * 256 + cpu.l

/-- `Cpu::set_hl`: `h = (v >> 8) as u8`, `l = v as u8`. -/
def set_hl (cpu : Cpu) (value : Nat) : Cpu :=
  { cpu with h := u8 (value / 256), l := u8 value }

/-- `Cpu::get_de`. -/
def get_de (cpu : Cpu) : Nat := cpu.d * 256 + cpu.e

/-- `Cpu::set_de`. -/
def set_de (cpu : Cpu) (value : Nat) : Cpu :=
  { cpu with d := u8 (value / 256), e := u8 value }

/-- `Cpu::get_bc`. -/
def get_bc (cpu : Cpu) : Nat := cpu.b * 256 + cpu.c

/-- `Cpu::set_bc`. -/
def set_bc (cpu : Cpu) (value : Nat) : Cpu :=
  { cpu with b := u8 (value / 256), c := u8 value }

/-! ## Flag bits and `set_flag`/`get_flag` (`src/cpu/flags.rs`) -/

def FLAG_C : Nat := 0x01
def FLAG_N : Nat := 0x02
def FLAG_PV : Nat := 0x04
def FLAG_H : Nat := 0x10
def FLAG_Z : Nat := 0x40
def FLAG_S : Nat := 0x80
def FLAG_Y : Nat := 0x20
def FLAG_X : Nat := 0x08

/-- `Cpu::set_flag`: `f |= flag` or `f &= !flag` (`!flag` on a `u8` is `255 ^ flag`). -/
def set_flag (cpu : Cpu) (flag : Nat) (value : Bool) : Cpu :=
  if value then { cpu with f := cpu.f ||| flag } else { cpu with f := cpu.f &&& (255 ^^^ flag) }

/-- `Cpu::get_flag`: `(f & flag) != 0`. -/
def get_flag (cpu : Cpu) (flag : Nat) : Bool := cpu.f &&& flag != 0

/-! ### Projection lemmas: which fields each state-updating helper touches -/

@[simp] theorem set_flag_a (cpu : Cpu) (m : Nat) (v : Bool) : (set_flag cpu m v).a = cpu.a := by
  cases v <;> rfl

@[simp] theorem set_flag_b (cpu : Cpu) (m : Nat) (v : Bool) : (set_flag cpu m v).b = cpu.b := by
  cases v <;> rfl

@[simp] theorem set_flag_c (cpu : Cpu) (m : Nat) (v : Bool) : (set_flag cpu m v).c = cpu.c := by
  cases v <;> rfl

@[simp] theorem set_flag_d (cpu : Cpu) (m : Nat) (v : Bool) : (set_flag cpu m v).d = cpu.d := by
  cases v <;> rfl

@[simp] theorem set_flag_e (cpu : Cpu) (m : Nat) (v : Bool) : (set_flag cpu m v).e = cpu.e := by
  cases v <;> rfl

@[simp] theorem set_flag_h (cpu : Cpu) (m : Nat) (v : Bool) : (set_flag cpu m v).h = cpu.h := by
  cases v <;> rfl

@[simp] theorem set_flag_l (cpu : Cpu) (m : Nat) (v : Bool) : (set_flag cpu m v).l = cpu.l := by
  cases v <;> rfl

@[simp] theorem set_flag_pc (cpu : Cpu) (m : Nat) (v : Bool) : (set_flag cpu m v).pc = cpu.pc := by
  cases v <;> rfl

@[simp] theorem set_flag_sp (cpu : Cpu) (m : Nat) (v : Bool) : (set_flag cpu m v).sp = cpu.sp := by
  cases v <;> rfl

@[simp] theorem set_flag_memory (cpu : Cpu) (m : Nat) (v : Bool) :
    (set_flag cpu m v).memory = cpu.memory := by
  cases v <;> rfl

@[simp] theorem set_bc_b (cpu : Cpu) (v : Nat) : (set_bc cpu v).b = u8 (v / 256) := rfl

@[simp] theorem set_bc_c (cpu : Cpu) (v : Nat) : (set_bc cpu v).c = u8 v := rfl

@[simp] theorem set_bc_d (cpu : Cpu) (v : Nat) : (set_bc cpu v).d = cpu.d := rfl

@[simp] theorem set_bc_e (cpu : Cpu) (v : Nat) : (set_bc cpu v).e = cpu.e := rfl

@[simp] theorem set_bc_h (cpu : Cpu) (v : Nat) : (set_bc cpu v).h = cpu.h := rfl

@[simp] theorem set_bc_l (cpu : Cpu) (v : Nat) : (set_bc cpu v).l = cpu.l := rfl

@[simp] theorem set_bc_a (cpu : Cpu) (v : Nat) : (set_bc cpu v).a = cpu.a := rfl

@[simp] theorem set_bc_f (cpu : Cpu) (v : Nat) : (set_bc cpu v).f = cpu.f := rfl

@[simp] theorem set_bc_pc (cpu : Cpu) (v : Nat) : (set_bc cpu v).pc = cpu.pc := rfl

@[simp] theorem set_bc_memory (cpu : Cpu) (v : Nat) : (set_bc cpu v).memory = cpu.memory := rfl

@[simp] theorem set_de_b (cpu : Cpu) (v : Nat) : (set_de cpu v).b = cpu.b := rfl

@[simp] theorem set_de_c (cpu : Cpu) (v : Nat) : (set_de cpu v).c = cpu.c := rfl

@[simp] theorem set_de_d (cpu : Cpu) (v : Nat) : (set_de cpu v).d = u8 (v / 256) := rfl

@[simp] theorem set_de_e (cpu : Cpu) (v : Nat) : (set_de cpu v).e = u8 v := rfl

@[simp] theorem set_de_h (cpu : Cpu) (v : Nat) : (set_de cpu v).h = cpu.h := rfl

@[simp] theorem set_de_l (cpu : Cpu) (v : Nat) : (set_de cpu v).l = cpu.l := rfl

@[simp] theorem set_de_a (cpu : Cpu) (v : Nat) : (set_de cpu v).a = cpu.a := rfl

@[simp] theorem set_de_f (cpu : Cpu) (v : Nat) : (set_de cpu v).f = cpu.f := rfl

@[simp] theorem set_de_pc (cpu : Cpu) (v : Nat) : (set_de cpu v).pc = cpu.pc := rfl

@[simp] theorem set_de_memory (cpu : Cpu) (v : Nat) : (set_de cpu v).memory = cpu.memory := rfl

@[simp] theorem set_hl_b (cpu : Cpu) (v : Nat) : (set_hl cpu v).b = cpu.b := rfl

@[simp] theorem set_hl_c (cpu : Cpu) (v : Nat) : (set_hl cpu v).c = cpu.c := rfl

@[simp] theorem set_hl_d (cpu : Cpu) (v : Nat) : (set_hl cpu v).d = cpu.d := rfl

@[simp] theorem set_hl_e (cpu : Cpu) (v : Nat) : (set_hl cpu v).e = cpu.e := rfl

@[simp] theorem set_hl_h (cpu : Cpu) (v : Nat) : (set_hl cpu v).h = u8 (v / 256) := rfl

@[simp] theorem set_hl_l (cpu : Cpu) (v : Nat) : (set_hl cpu v).l = u8 v := rfl

@[simp] theorem set_hl_a (cpu : Cpu) (v : Nat) : (set_hl cpu v).a = cpu.a := rfl

@[simp] theorem set_hl_f (cpu : Cpu) (v : Nat) : (set_hl cpu v).f = cpu.f := rfl

@[simp] theorem set_hl_pc (cpu : Cpu) (v : Nat) : (set_hl cpu v).pc = cpu.pc := rfl

@[simp] theorem set_hl_memory (cpu : Cpu) (v : Nat) : (set_hl cpu v).memory = cpu.memory := rfl

@[simp] theorem write_byte_b (cpu : Cpu) (ad v : Nat) : (write_byte cpu ad v).b = cpu.b := rfl

@[simp] theorem write_byte_c (cpu : Cpu) (ad v : Nat) : (write_byte cpu ad v).c = cpu.c := rfl

@[simp] theorem write_byte_d (cpu : Cpu) (ad v : Nat) : (write_byte cpu ad v).d = cpu.d := rfl

@[simp] theorem write_byte_e (cpu : Cpu) (ad v : Nat) : (write_byte cpu ad v).e = cpu.e := rfl

@[simp] theorem write_byte_h (cpu : Cpu) (ad v : Nat) : (write_byte cpu ad v).h = cpu.h := rfl

@[simp] theorem write_byte_l (cpu : Cpu) (ad v : Nat) : (write_byte cpu ad v).l = cpu.l := rfl

@[simp] theorem write_byte_a (cpu : Cpu) (ad v : Nat) : (write_byte cpu ad v).a = cpu.a := rfl

@[simp] theorem write_byte_f (cpu : Cpu) (ad v : Nat) : (write_byte cpu ad v).f = cpu.f := rfl

@[simp] theorem write_byte_pc (cpu : Cpu) (ad v : Nat) : (write_byte cpu ad v).pc = cpu.pc := rfl

@[simp] theorem write_byte_sp (cpu : Cpu) (ad v : Nat) : (write_byte cpu ad v).sp = cpu.sp := rfl

@[simp] theorem write_byte_memory (cpu : Cpu) (ad v : Nat) :
    (write_byte cpu ad v).memory = fun x => if x = u16 ad then u8 v else cpu.memory x := rfl

/-! ### Bit-level kit for reasoning about the packed flag register -/

theorem land_lor_left (f m₁ m₂ : Nat) (h : m₁ &&& m₂ = 0) :
    (f ||| m₁) &&& m₂ = f &&& m₂ := by
  apply Nat.eq_of_testBit_eq
  intro j
  have hj : (m₁ &&& m₂).testBit j = false := by rw [h]; simp
  rw [Nat.testBit_land] at hj
  rw [Nat.testBit_land, Nat.testBit_land, Nat.testBit_lor]
  cases hm1 : m₁.testBit j <;> cases hm2 : m₂.testBit j <;> simp_all

theorem land_mask_keep (f m₁ m₂ : Nat) (h : m₂ &&& (255 ^^^ m₁) = m₂) :
    (f &&& (255 ^^^ m₁)) &&& m₂ = f &&& m₂ := by
  apply Nat.eq_of_testBit_eq
  intro j
  have hj := congrArg (fun x => x.testBit j) h
  simp only [Nat.testBit_land] at hj
  rw [Nat.testBit_land, Nat.testBit_land, Nat.testBit_land]
  cases hc : (255 ^^^ m₁).testBit j <;> cases hm2 : m₂.testBit j <;> simp_all

theorem lor_land_ne_zero (f m₁ m₂ : Nat) (h : m₁ &&& m₂ = m₂) (h0 : m₂ ≠ 0) :
    (f ||| m₁) &&& m₂ ≠ 0 := by
  obtain ⟨j, hj⟩ := Nat.ne_zero_implies_bit_true h0
  intro hzero
  have hz := congrArg (fun x => x.testBit j) hzero
  have hm1 : m₁.testBit j = true := by
    have hh := congrArg (fun x => x.testBit j) h
    simp only [Nat.testBit_land] at hh
    cases hx : m₁.testBit j <;> simp_all
  simp only [Nat.testBit_land, Nat.testBit_lor, Nat.zero_testBit] at hz
  simp_all

theorem land_compl_land_zero (f m₁ m₂ : Nat) (h : m₂ &&& (255 ^^^ m₁) = 0) :
    (f &&& (255 ^^^ m₁)) &&& m₂ = 0 := by
  apply Nat.eq_of_testBit_eq
  intro j
  have hj := congrArg (fun x => x.testBit j) h
  simp only [Nat.testBit_land, Nat.zero_testBit] at hj
  rw [Nat.testBit_land, Nat.testBit_land]
  simp only [Nat.zero_testBit]
  cases hc : (255 ^^^ m₁).testBit j <;> cases hm2 : m₂.testBit j <;> simp_all

/-- Setting a flag mask disjoint from `m₂` leaves `get_flag _ m₂` unchanged. -/
theorem get_flag_set_flag_other (cpu : Cpu) (m₁ m₂ : Nat) (b : Bool)
    (h1 : m₁ &&& m₂ = 0) (h2 : m₂ &&& (255 ^^^ m₁) = m₂) :
    get_flag (set_flag cpu m₁ b) m₂ = get_flag cpu m₂ := by
  cases b <;>
    simp [get_flag, set_flag, land_lor_left _ _ _ h1, land_mask_keep _ _ _ h2]

/-- Setting a flag mask that covers `m₂` makes `get_flag _ m₂` the stored value. -/
theorem get_flag_set_flag_self (cpu : Cpu) (m₁ m₂ : Nat) (b : Bool)
    (hsub : m₁ &&& m₂ = m₂) (h0 : m₂ ≠ 0) (hcl : m₂ &&& (255 ^^^ m₁) = 0) :
    get_flag (set_flag cpu m₁ b) m₂ = b := by
  cases b
  · simp [get_flag, set_flag, land_compl_land_zero _ _ _ hcl]
  · simp [get_flag, set_flag]
    exact lor_land_ne_zero _ _ _ hsub h0

/-! ## 8-bit arithmetic (`src/cpu/instructions/arithmetic.rs`)

Only the operations the claims are about are embedded (the subtraction family
is untouched by the claims). -/

/-- `u8::count_ones` (population count of a byte: all arguments are `u8`). -/
def count_ones (n : Nat) : Nat := ((List.range 8).map fun k => n / 2 ^ k % 2).sum

/-- `Cpu::update_flags_add` (private helper of ADD/ADC).
`result` is computed in `u16`: `(a as u16) + (value as u16) + (carry as u16)`.
Note the P/V expression ends in `== 0` exactly as the source's does. -/
def update_flags_add (cpu : Cpu) (a value : Nat) (carry : Bool) : Cpu :=
  let result := a + value + (if carry then 1 else 0)
  let cpu := set_flag cpu FLAG_S (result &&& 0x80 != 0)
  let cpu := set_flag cpu FLAG_Z (result % 256 == 0)
  let cpu := set_flag cpu FLAG_H (decide (0x0F < a % 16 + value % 16 + (if carry then 1 else 0)))
  let cpu := set_flag cpu FLAG_PV (((a ^^^ value ^^^ 0x80) &&& (a ^^^ u8 result)) &&& 0x80 == 0)
  let cpu := set_flag cpu FLAG_N false
  let cpu := set_flag cpu FLAG_C (decide (0xFF < result))
  let cpu := set_flag cpu FLAG_Y (result &&& (1 <<< 5) != 0)
  set_flag cpu FLAG_X (result &&& (1 <<< 3) != 0)

/-- `Cpu::add_a`. -/
def add_a (cpu : Cpu) (value : Nat) : Cpu :=
  let a := cpu.a
  let result := wadd8 a value
  let cpu := update_flags_add cpu a value false
  { cpu with a := result }

/-- `Cpu::adc_a`. -/
def adc_a (cpu : Cpu) (value : Nat) : Cpu :=
  let a := cpu.a
  let carry := (get_flag cpu FLAG_C).toNat
  let result := wadd8 (wadd8 a value) carry
  let cpu := update_flags_add cpu a value (carry ≠ 0)
  { cpu with a := result }

/-- `Cpu::inc`: mutates the flags, returns the incremented value. -/
def inc (cpu : Cpu) (value : Nat) : Cpu × Nat :=
  let result := wadd8 value 1
  let cpu := set_flag cpu FLAG_S (result &&& 0x80 != 0)
  let cpu := set_flag cpu FLAG_Z (result == 0)
  let cpu := set_flag cpu FLAG_H (value % 16 == 0x0F)
  let cpu := set_flag cpu FLAG_PV (value == 0x7F)
  let cpu := set_flag cpu FLAG_N false
  let cpu := set_flag cpu FLAG_Y (result &&& (1 <<< 5) != 0)
  let cpu := set_flag cpu FLAG_X (result &&& (1 <<< 3) != 0)
  (cpu, result)

/-- `Cpu::dec`: mutates the flags, returns the decremented value. -/
def dec (cpu : Cpu) (value : Nat) : Cpu × Nat :=
  let result := wsub8 value 1
  let cpu := set_flag cpu FLAG_S (result &&& 0x80 != 0)
  let cpu := set_flag cpu FLAG_Z (result == 0)
  let cpu := set_flag cpu FLAG_H (value % 16 == 0)
  let cpu := set_flag cpu FLAG_PV (value == 0x80)
  let cpu := set_flag cpu FLAG_N true
  let cpu := set_flag cpu FLAG_Y (result &&& (1 <<< 5) != 0)
  let cpu := set_flag cpu FLAG_X (result &&& (1 <<< 3) != 0)
  (cpu, result)

/-- `Cpu::daa`.  The source initialises `adjust` to `0x60` when C is set, then
conditionally ORs in `0x06` and `0x60`; the three contributions are combined
here with `|||` in the same order. -/
def daa (cpu : Cpu) : Cpu :=
  let a := cpu.a
  let adjust :=
    (if get_flag cpu FLAG_C then 0x60 else 0)
      ||| (if get_flag cpu FLAG_H || decide (9 < a % 16) then 0x06 else 0)
      ||| (if get_flag cpu FLAG_C || decide (0x99 < a) then 0x60 else 0)
  let a := if get_flag cpu FLAG_N then wsub8 a adjust else wadd8 a adjust
  let cpu := set_flag cpu FLAG_S (a &&& 0x80 != 0)
  let cpu := set_flag cpu FLAG_Z (a == 0)
  let cpu := set_flag cpu FLAG_H false
  let cpu := set_flag cpu FLAG_PV (count_ones a % 2 == 0)
  let cpu := set_flag cpu FLAG_C (decide (0x60 ≤ adjust))
  let cpu := set_flag cpu FLAG_Y (a &&& (1 <<< 5) != 0)
  let cpu := set_flag cpu FLAG_X (a &&& (1 <<< 3) != 0)
  { cpu with a := a }

/-! ## Rotates (`src/cpu/instructions/bit_manipulation.rs`) -/

/-- Shared flag update of the rotation/shift family (`update_rotation_flags`):
sets S, Z and parity-PV from the result, clears H and N. -/
def update_rotation_flags (cpu : Cpu) (result : Nat) : Cpu :=
  let cpu := set_flag cpu FLAG_S (result &&& 0x80 != 0)
  let cpu := set_flag cpu FLAG_Z (result == 0)
  let cpu := set_flag cpu FLAG_H false
  let cpu := set_flag cpu FLAG_PV (count_ones result % 2 == 0)
  set_flag cpu FLAG_N false

/-- `Cpu::rlc`: `value.rotate_left(1)` on a byte. -/
def rlc (cpu : Cpu) (value : Nat) : Cpu × Nat :=
  let result := u8 value * 2 % 256 + u8 value / 128
  let cpu := update_rotation_flags cpu result
  let cpu := set_flag cpu FLAG_C (value &&& 0x80 != 0)
  (cpu, result)

/-- `Cpu::rrc`: `value.rotate_right(1)` on a byte. -/
def rrc (cpu : Cpu) (value : Nat) : Cpu × Nat :=
  let result := u8 value / 2 + value % 2 * 128
  let cpu := update_rotation_flags cpu result
  let cpu := set_flag cpu FLAG_C (value &&& 0x01 != 0)
  (cpu, result)

/-- `Cpu::rl`: `(value << 1) | carry` in `u8`. -/
def rl (cpu : Cpu) (value : Nat) : Cpu × Nat :=
  let carry := (get_flag cpu FLAG_C).toNat
  let result := u8 value * 2 % 256 + carry
  let cpu := update_rotation_flags cpu result
  let cpu := set_flag cpu FLAG_C (value &&& 0x80 != 0)
  (cpu, result)

/-- `Cpu::rr`: `(value >> 1) | (carry << 7)` in `u8`. -/
def rr (cpu : Cpu) (value : Nat) : Cpu × Nat :=
  let carry := (get_flag cpu FLAG_C).toNat
  let result := u8 value / 2 + carry * 128
  let cpu := update_rotation_flags cpu result
  let cpu := set_flag cpu FLAG_C (value &&& 0x01 != 0)
  (cpu, result)

/-- `Cpu::rlca`: `self.a = self.rlc(self.a)`, then clear H and N. -/
def rlca (cpu : Cpu) : Cpu :=
  let p := rlc cpu cpu.a
  let cpu := { p.1 with a := p.2 }
  let cpu := set_flag cpu FLAG_H false
  set_flag cpu FLAG_N false

/-- `Cpu::rrca`. -/
def rrca (cpu : Cpu) : Cpu :=
  let p := rrc cpu cpu.a
  let cpu := { p.1 with a := p.2 }
  let cpu := set_flag cpu FLAG_H false
  set_flag cpu FLAG_N false

/-- `Cpu::rla`. -/
def rla (cpu : Cpu) : Cpu :=
  let p := rl cpu cpu.a
  let cpu := { p.1 with a := p.2 }
  let cpu := set_flag cpu FLAG_H false
  set_flag cpu FLAG_N false

/-- `Cpu::rra`. -/
def rra (cpu : Cpu) : Cpu :=
  let p := rr cpu cpu.a
  let cpu := { p.1 with a := p.2 }
  let cpu := set_flag cpu FLAG_H false
  set_flag cpu FLAG_N false

/-! ## Block transfer (`src/cpu/instructions/block_operations.rs`) -/

/-- `Cpu::ldi`: one LDIR/LDI transfer step. -/
def ldi (cpu : Cpu) : Cpu :=
  let value := read_byte cpu (get_hl cpu)
  let cpu := write_byte cpu (get_de cpu) value
  let cpu := set_hl cpu (wadd16 (get_hl cpu) 1)
  let cpu := set_de cpu (wadd16 (get_de cpu) 1)
  let cpu := set_bc cpu (wsub16 (get_bc cpu) 1)
  let n := wadd8 cpu.a value
  let cpu := set_flag cpu (FLAG_H ||| FLAG_N) false
  let cpu := set_flag cpu FLAG_PV (get_bc cpu != 0)
  let cpu := set_flag cpu FLAG_Y (n &&& 0x02 != 0)
  set_flag cpu FLAG_X (n &&& 0x08 != 0)

theorem get_bc_ldi (cpu : Cpu) : get_bc (ldi cpu) = wsub16 (get_bc cpu) 1 := by
  simp only [ldi, get_bc, set_flag_b, set_flag_c, set_bc_b, set_bc_c, set_de_b, set_de_c,
    set_hl_b, set_hl_c, write_byte_b, write_byte_c, u8, wsub16]
  omega

theorem get_bc_pc_update (cpu : Cpu) (v : Nat) : get_bc { cpu with pc := v } = get_bc cpu := rfl

/-- `Cpu::ldir`: loop `ldi` until BC reaches zero; between iterations the
source rewinds PC by 2 (`self.pc = self.pc.wrapping_sub(2)`). -/
def ldir (cpu : Cpu) : Cpu :=
  if h : get_bc (ldi cpu) = 0 then ldi cpu
  else ldir { ldi cpu with pc := wsub16 (ldi cpu).pc 2 }
  termination_by (if get_bc cpu = 0 then 65536 else get_bc cpu)
  decreasing_by
    have h2 : ¬ wsub16 (get_bc cpu) 1 = 0 := by rwa [get_bc_ldi] at h
    rw [get_bc_pc_update, get_bc_ldi, if_neg h2]
    unfold wsub16 at h2 ⊢
    split <;> omega

/-- Number of single-step transfers (`ldi` invocations) performed by the loop
of `ldir`; defined by the same recursion as `ldir`. -/
def ldirCount (cpu : Cpu) : Nat :=
  if h : get_bc (ldi cpu) = 0 then 1
  else 1 + ldirCount { ldi cpu with pc := wsub16 (ldi cpu).pc 2 }
  termination_by (if get_bc cpu = 0 then 65536 else get_bc cpu)
  decreasing_by
    have h2 : ¬ wsub16 (get_bc cpu) 1 = 0 := by rwa [get_bc_ldi] at h
    rw [get_bc_pc_update, get_bc_ldi, if_neg h2]
    unfold wsub16 at h2 ⊢
    split <;> omega

/-! ## Interrupts (`src/cpu/interrupts.rs`)

`handle_interrupt` panics on an interrupt mode outside 0–2, so the embedding
returns `Option Cpu`, with `none` for the panic. -/

/-- `Cpu::handle_interrupt_mode0` (push PC, jump to 0x0038). -/
def handle_interrupt_mode0 (cpu : Cpu) : Cpu :=
  let cpu := { cpu with sp := wsub16 cpu.sp 2 }
  let cpu := write_word cpu cpu.sp cpu.pc
  { cpu with pc := 0x0038 }

/-- `Cpu::handle_interrupt_mode1` (push PC, jump to 0x0038). -/
def handle_interrupt_mode1 (cpu : Cpu) : Cpu :=
  let cpu := { cpu with sp := wsub16 cpu.sp 2 }
  let cpu := write_word cpu cpu.sp cpu.pc
  { cpu with pc := 0x0038 }

/-- `Cpu::handle_interrupt_mode2`: vector `0xFF`, table address `(i << 8) | vector`. -/
def handle_interrupt_mode2 (cpu : Cpu) : Cpu :=
  let vector := 0xFF
  let address := cpu.i * 256 + vector
  let jump_address := read_word cpu address
  let cpu := { cpu with sp := wsub16 cpu.sp 2 }
  let cpu := write_word cpu cpu.sp cpu.pc
  { cpu with pc := jump_address }

/-- `Cpu::handle_interrupt`. -/
def handle_interrupt (cpu : Cpu) : Option Cpu :=
  if !cpu.iff1 then some cpu
  else
    let cpu := if cpu.halted then { cpu with halted := false, pc := wadd16 cpu.pc 1 } else cpu
    let cpu := { cpu with iff1 := false, iff2 := false }
    match cpu.interrupt_mode with
    | 0 => some (handle_interrupt_mode0 cpu)
    | 1 => some (handle_interrupt_mode1 cpu)
    | 2 => some (handle_interrupt_mode2 cpu)
    | _ => none

/-! ## The event queue (`src/event/mod.rs`) -/

/-- `Event`. -/
inductive Event where
  | Interrupt
  | Timer
  deriving DecidableEq, Repr

/-- A queue entry: `(event, t_state)`. -/
abbrev EvEntry := Event × Nat

/-- Stable insertion, modelling where `Vec::sort_by_key` (a stable sort)
places an element appended at the end of an already sorted vector: after all
entries whose key is `≤` its key. -/
def insertEv (x : EvEntry) : List EvEntry → List EvEntry
  | [] => [x]
  | y :: ys => if y.2 ≤ x.2 then y :: insertEv x ys else x :: y :: ys

/-- Stable sort by due T-state (`self.events.sort_by_key(|&(_, t)| t)`):
insertion sort processing elements left to right, each landing after
already-placed entries with equal keys. -/
def sortByKey (l : List EvEntry) : List EvEntry :=
  l.foldl (fun acc x => insertEv x acc) []

/-- `EventQueue`. -/
structure EventQueue where
  events : List EvEntry

/-- `EventQueue::new`. -/
def EventQueue.new : EventQueue := ⟨[]⟩

/-- `EventQueue::push`: append, then re-sort (stably) by due T-state. -/
def EventQueue.push (q : EventQueue) (event : Event) (t_state : Nat) : EventQueue :=
  ⟨sortByKey (q.events ++ [(event, t_state)])⟩

/-- `EventQueue::peek`. -/
def EventQueue.peek (q : EventQueue) : Option EvEntry := q.events.head?

/-- `EventQueue::pop`: remove and return the front entry. -/
def EventQueue.pop (q : EventQueue) : Option EvEntry × EventQueue :=
  match q.events with
  | [] => (none, ⟨[]⟩)
  | x :: xs => (some x, ⟨xs⟩)

/-- `EventQueue::is_empty`. -/
def EventQueue.is_empty (q : EventQueue) : Bool := q.events.isEmpty

/-! ## Instruction metadata (`src/cpu/instruction.rs`, `src/cpu/tables.rs`) -/

/-- `InstructionType` (the `IO` variant is spelled `Io` here). -/
inductive InstructionType where
  | Load
  | Arithmetic
  | Logic
  | Rotate
  | BitManip
  | Jump
  | Call
  | Return
  | Io
  | Control
  | Exchange
  | Block
  | Special
  deriving DecidableEq, Repr

/-- Instruction metadata.  The bound executor field is omitted: `create_nop()`
and every table entry bind the do-nothing executor `|_cpu| Ok(())` (the tables
use `create_nop()` as an explicit placeholder). -/
structure Instruction where
  mnemonic : String
  length : Nat
  t_states : Nat
  instruction_type : InstructionType
  deriving DecidableEq, Repr

/-- `create_nop()`: the NOP instruction metadata (length 1, 4 T-states). -/
def create_nop : Instruction := ⟨"NOP", 1, 4, .Control⟩

/-! ## The instruction tables (`src/cpu/tables.rs`)

Each `init_*_table` routine performs a sequence of `HashMap::insert`s; a table
is modelled as the lookup function produced by that insert sequence (later
inserts overwrite earlier ones). -/

/-- `HashMap` built from a list of inserts, in order: the last insert wins. -/
def tableLookup (inserts : List (Nat × Instruction)) (opcode : Nat) : Option Instruction :=
  inserts.foldl (fun acc kv => fun x => if x = kv.1 then some kv.2 else acc x)
    (fun _ => none) opcode

/-- Register-operand spelling used by the CB-table mnemonics. -/
def regName (r : Nat) : String :=
  match r with
  | 0 => "B"
  | 1 => "C"
  | 2 => "D"
  | 3 => "E"
  | 4 => "H"
  | 5 => "L"
  | 6 => "(HL)"
  | _ => "A"

def rlc_mnemonic (r : Nat) : String := "RLC " ++ regName r

def rrc_mnemonic (r : Nat) : String := "RRC " ++ regName r

/-- `BIT_MNEMONICS[bit][reg]`. -/
def bit_mnemonic (bit reg : Nat) : String := "BIT " ++ toString bit ++ ", " ++ regName reg

/-- `init_main_table`: only NOP (0x00). -/
def main_inserts : List (Nat × Instruction) :=
  [(0x00, ⟨"NOP", 1, 4, .Control⟩)]

/-- `init_cb_table`: RLC (00–07), RRC (08–0F), BIT (40–7F); `(HL)` operands
cost 15 (rotate) / 12 (BIT) T-states, register operands 8. -/
def cb_inserts : List (Nat × Instruction) :=
  ((List.range 8).map fun i =>
    (i, (⟨rlc_mnemonic i, 2, if i == 6 then 15 else 8, .Rotate⟩ : Instruction)))
  ++ ((List.range 8).map fun j =>
    (8 + j, (⟨rrc_mnemonic ((8 + j) % 8), 2,
      if (8 + j) % 8 == 6 then 15 else 8, .Rotate⟩ : Instruction)))
  ++ ((List.range 8).flatMap fun bit => (List.range 8).map fun reg =>
    (0x40 ||| (bit <<< 3) ||| reg,
     (⟨bit_mnemonic bit reg, 2, if reg == 6 then 12 else 8, .BitManip⟩ : Instruction)))

/-- `IX_LOAD_MNEMONICS[r]`. -/
def ix_load_mnemonic (r : Nat) : String :=
  match r with
  | 0 => "LD B, (IX+d)"
  | 1 => "LD C, (IX+d)"
  | 2 => "LD D, (IX+d)"
  | 3 => "LD E, (IX+d)"
  | 4 => "LD H, (IX+d)"
  | 5 => "LD L, (IX+d)"
  | 6 => "LD (IX+d), r"
  | _ => "LD A, (IX+d)"

/-- `IY_LOAD_MNEMONICS[r]`. -/
def iy_load_mnemonic (r : Nat) : String :=
  match r with
  | 0 => "LD B, (IY+d)"
  | 1 => "LD C, (IY+d)"
  | 2 => "LD D, (IY+d)"
  | 3 => "LD E, (IY+d)"
  | 4 => "LD H, (IY+d)"
  | 5 => "LD L, (IY+d)"
  | 6 => "LD (IY+d), r"
  | _ => "LD A, (IY+d)"

/-- `IX_ARITHMETIC_MNEMONICS[op][rp]`. -/
def ix_arith_mnemonic (op rp : Nat) : String :=
  (match op with | 0 => "ADD" | 1 => "ADC" | 2 => "SUB" | _ => "SBC")
    ++ " IX, " ++ (match rp with | 0 => "BC" | 1 => "DE" | 2 => "IX" | _ => "SP")

/-- `IY_ARITHMETIC_MNEMONICS[op][rp]`. -/
def iy_arith_mnemonic (op rp : Nat) : String :=
  (match op with | 0 => "ADD" | 1 => "ADC" | 2 => "SUB" | _ => "SBC")
    ++ " IY, " ++ (match rp with | 0 => "BC" | 1 => "DE" | 2 => "IY" | _ => "SP")

/-- `init_ddfd_table`: IX/IY loads at `0x46 | (reg << 3)` (IY variants with
bit 7 set), then the 16-bit arithmetic block at `base | (rp << 4)` (IY
variants `| 0x20`), inserted in exactly the source's loop order. -/
def ddfd_inserts : List (Nat × Instruction) :=
  ((List.range 8).flatMap fun reg =>
    [(0x46 ||| (reg <<< 3), (⟨ix_load_mnemonic reg, 3, 19, .Load⟩ : Instruction)),
     ((0x46 ||| (reg <<< 3)) ||| 0x80, (⟨iy_load_mnemonic reg, 3, 19, .Load⟩ : Instruction))])
  ++ ([(0x84, 0), (0x8C, 1), (0x94, 2), (0x9C, 3)].flatMap fun bo =>
    (List.range 4).flatMap fun rp =>
      [(bo.1 ||| (rp <<< 4), (⟨ix_arith_mnemonic bo.2 rp, 2, 15, .Arithmetic⟩ : Instruction)),
       ((bo.1 ||| (rp <<< 4)) ||| 0x20,
        (⟨iy_arith_mnemonic bo.2 rp, 2, 15, .Arithmetic⟩ : Instruction))])

/-- `init_ed_table`: block transfer/search, I/O and extended arithmetic. -/
def ed_inserts : List (Nat × Instruction) :=
  ([(0xA0, "LDI", 16), (0xA1, "CPI", 16), (0xA2, "INI", 16), (0xA3, "OUTI", 16),
    (0xA8, "LDD", 16), (0xA9, "CPD", 16), (0xAA, "IND", 16), (0xAB, "OUTD", 16),
    (0xB0, "LDIR", 21), (0xB1, "CPIR", 21), (0xB2, "INIR", 21), (0xB3, "OTIR", 21),
    (0xB8, "LDDR", 21), (0xB9, "CPDR", 21), (0xBA, "INDR", 21), (0xBB, "OTDR", 21)].map
    fun x => (x.1, (⟨x.2.1, 2, x.2.2, .Block⟩ : Instruction)))
  ++ ([(0x40, "IN B,(C)"), (0x41, "OUT (C),B"), (0x48, "IN C,(C)"), (0x49, "OUT (C),C"),
    (0x50, "IN D,(C)"), (0x51, "OUT (C),D"), (0x58, "IN E,(C)"), (0x59, "OUT (C),E"),
    (0x60, "IN H,(C)"), (0x61, "OUT (C),H"), (0x68, "IN L,(C)"), (0x69, "OUT (C),L"),
    (0x70, "IN (C)"), (0x71, "OUT (C),0"), (0x78, "IN A,(C)"), (0x79, "OUT (C),A")].map
    fun x => (x.1, (⟨x.2, 2, 12, .Io⟩ : Instruction)))
  ++ ([(0x4C, "NEG", 8), (0x67, "RRD", 18), (0x6F, "RLD", 18),
    (0x44, "IM 0", 8), (0x54, "IM 1", 8), (0x5E, "IM 2", 8)].map
    fun x => (x.1, (⟨x.2.1, 2, x.2.2, .Arithmetic⟩ : Instruction)))

/-- `InstructionTables::lookup_main`. -/
def lookup_main (opcode : Nat) : Option Instruction := tableLookup main_inserts opcode

/-- `InstructionTables::lookup_cb`. -/
def lookup_cb (opcode : Nat) : Option Instruction := tableLookup cb_inserts opcode

/-- `InstructionTables::lookup_ddfd`. -/
def lookup_ddfd (opcode : Nat) : Option Instruction := tableLookup ddfd_inserts opcode

/-- `InstructionTables::lookup_ed`. -/
def lookup_ed (opcode : Nat) : Option Instruction := tableLookup ed_inserts opcode

/-! ## The decoder (`src/cpu/decoder.rs`)

The decoder's prefix state enum (`Prefix` in the source) is named `PfxKind`
here, and `current_prefix` / `current_prefix_t_states` become `cur_pfx` /
`pfx_t_states`. -/

/-- The prefix automaton states. -/
inductive PfxKind where
  | None
  | Cb
  | Dd
  | Fd
  | Ed
  | DdCb
  | FdCb
  deriving DecidableEq, Repr

/-- Decoder state.  The owned `InstructionTables` value is represented by the
constant lookup functions above (tables are built once and read-only). -/
structure Decoder where
  cur_pfx : PfxKind
  pfx_t_states : Nat
  deriving DecidableEq, Repr

/-- `Decoder::new`. -/
def Decoder.new : Decoder := ⟨.None, 0⟩

/-- `Decoder::handle_prefix`: the prefix transition table.  `some p` models
the source returning `true` after setting `current_prefix = p`; `none` models
returning `false` (state unchanged). -/
def handle_pfx (cur : PfxKind) (opcode : Nat) : Option PfxKind :=
  match cur, opcode with
  | .None, 0xCB => some .Cb
  | .None, 0xDD => some .Dd
  | .None, 0xFD => some .Fd
  | .None, 0xED => some .Ed
  | .Dd, 0xCB => some .DdCb
  | .Fd, 0xCB => some .FdCb
  | _, _ => none

/-- `PREFIX_INSTRUCTION` (returned while a prefix sequence is incomplete). -/
def PFX_INSTRUCTION : Instruction := ⟨"PREFIX", 1, 4, .Special⟩

/-- `Decoder::decode`: handle a prefix byte, or look the terminal opcode up in
the table selected by the current prefix, adding the accrued prefix T-states.
Note the `DdCb`/`FdCb` states fall into the wildcard arm of the table
dispatch, which yields `None` and hence `InvalidOpcode`. -/
def decode (d : Decoder) (opcode : Nat) : Decoder × Except EmulatorError Instruction :=
  match handle_pfx d.cur_pfx opcode with
  | some p =>
    ({ d with cur_pfx := p, pfx_t_states := d.pfx_t_states + 4 }, .ok PFX_INSTRUCTION)
  | none =>
    let pfx_t := d.pfx_t_states
    let d := { d with pfx_t_states := 0 }
    match (match d.cur_pfx with
      | .None => lookup_main opcode
      | .Cb => lookup_cb opcode
      | .Ed => lookup_ed opcode
      | .Dd => lookup_ddfd opcode
      | .Fd => lookup_ddfd opcode
      | _ => none) with
    | some instruction =>
      ({ d with cur_pfx := .None },
       .ok { instruction with t_states := instruction.t_states + pfx_t })
    | none => (d, .error (.InvalidOpcode opcode))

/-! ## The execution engine of `src/cpu/mod.rs`

`src/cpu/mod.rs` carries its own CPU state type (structured `Flags` view, an
owned `Memory` from `src/memory/mod.rs`, a T-state counter and an event
queue); it is embedded in the `Engine` namespace. -/

namespace Engine

/-- The structured `Flags` view of `src/cpu/mod.rs`. -/
structure Flags where
  sign : Bool
  zero : Bool
  half_carry : Bool
  parity : Bool
  add_subtract : Bool
  carry : Bool
  deriving DecidableEq, Repr

/-- `Flags::default()`. -/
def Flags.default : Flags := ⟨false, false, false, false, false, false⟩

/-- `Memory` from `src/memory/mod.rs`: 64KB of RAM. -/
structure Memory where
  ram : Nat → Nat

/-- `Memory::new`. -/
def Memory.new : Memory := ⟨fun _ => 0⟩

/-- `Memory::read_byte`: always `Ok` (the full 64KB space is backed). -/
def Memory.read_byte (m : Memory) (address : Nat) : Except EmulatorError Nat :=
  .ok (m.ram (u16 address))

/-- `Memory::load`: fails when `address + len` exceeds the 64KB space,
otherwise copies the data in place. -/
def Memory.load (m : Memory) (address : Nat) (data : List Nat) : Except EmulatorError Memory :=
  if 65536 < address + data.length then .error (.MemoryError address)
  else .ok ⟨fun x =>
    if address ≤ x ∧ x < address + data.length then u8 (data.getD (x - address) 0)
    else m.ram x⟩

/-- The engine CPU state (`Cpu` in `src/cpu/mod.rs`). -/
structure Cpu where
  pc : Nat
  sp : Nat
  a : Nat
  b : Nat
  c : Nat
  d : Nat
  e : Nat
  h : Nat
  l : Nat
  a_prime : Nat
  b_prime : Nat
  c_prime : Nat
  d_prime : Nat
  e_prime : Nat
  h_prime : Nat
  l_prime : Nat
  ix : Nat
  iy : Nat
  i : Nat
  r : Nat
  flags : Flags
  flags_prime : Flags
  memory : Memory
  t_states : Nat
  event_queue : EventQueue

/-- `Cpu::new(memory)`: PC 0, SP 0xFFFF, everything else zeroed. -/
def Cpu.new (memory : Memory) : Cpu where
  pc := 0
  sp := 0xFFFF
  a := 0
  b := 0
  c := 0
  d := 0
  e := 0
  h := 0
  l := 0
  a_prime := 0
  b_prime := 0
  c_prime := 0
  d_prime := 0
  e_prime := 0
  h_prime := 0
  l_prime := 0
  ix := 0
  iy := 0
  i := 0
  r := 0
  flags := Flags.default
  flags_prime := Flags.default
  memory := memory
  t_states := 0
  event_queue := EventQueue.new

/-- `Cpu::load_program`. -/
def load_program (cpu : Cpu) (address : Nat) (program : List Nat) :
    Except EmulatorError Cpu := do
  let m ← Memory.load cpu.memory address program
  return { cpu with memory := m }

/-- `Cpu::increment_r`: lower 7 bits increment and wrap, bit 7 preserved. -/
def increment_r (cpu : Cpu) : Cpu :=
  { cpu with r := (cpu.r &&& 0x80) ||| ((cpu.r + 1) &&& 0x7f) }

/-- The while-let loop of `Cpu::process_events`: pop entries while the front
one is due (`t_state ≤ t_states`); `handle_event` dispatches each popped event
to `Cpu::handle_interrupt` / `Cpu::handle_timer`, which in this version of the
engine are `TODO` stubs returning `Ok(())`, so popping is the only effect. -/
def drain (t_states : Nat) : List EvEntry → List EvEntry
  | [] => []
  | (ev, t) :: rest => if t > t_states then (ev, t) :: rest else drain t_states rest

/-- `Cpu::process_events`. -/
def process_events (cpu : Cpu) : Except EmulatorError Cpu :=
  .ok { cpu with event_queue := ⟨drain cpu.t_states cpu.event_queue.events⟩ }

/-- `Cpu::step` (`src/cpu/mod.rs`): process events, fetch, process events,
bump R, decode (only opcode `0x00` resolves, to NOP — any other opcode is
`InvalidOpcode`), execute (the NOP executor `|_cpu| Ok(())` leaves the state
unchanged), accrue T-states and advance PC.  Returns the stepped state
together with the consumed T-states. -/
def step (cpu : Cpu) : Except EmulatorError (Cpu × Nat) := do
  let start_t_states := cpu.t_states
  let cpu ← process_events cpu
  let opcode ← Memory.read_byte cpu.memory cpu.pc
  let cpu ← process_events cpu
  let cpu := increment_r cpu
  let instruction ← match opcode with
    | 0x00 => Except.ok create_nop
    | _ => Except.error (EmulatorError.InvalidOpcode opcode)
  let cpu ← process_events cpu
  let cpu := { cpu with t_states := cpu.t_states + instruction.t_states }
  let cpu ← process_events cpu
  let cpu := { cpu with pc := wadd16 cpu.pc instruction.length }
  return (cpu, cpu.t_states - start_t_states)

end Engine

/-! ## Event-queue ordering theory (for C9) -/

/-- The due-cycle ordering on queue entries. -/
def EvLe (x y : EvEntry) : Prop := x.2 ≤ y.2

theorem mem_insertEv (x z : EvEntry) (l : List EvEntry) :
    z ∈ insertEv x l ↔ z = x ∨ z ∈ l := by
  induction l with
  | nil => simp [insertEv]
  | cons y ys ih =>
    by_cases h : y.2 ≤ x.2
    · simp only [insertEv, if_pos h, List.mem_cons, ih]
      tauto
    · simp only [insertEv, if_neg h, List.mem_cons]

theorem insertEv_sorted (x : EvEntry) (l : List EvEntry) (hs : l.Pairwise EvLe) :
    (insertEv x l).Pairwise EvLe := by
  induction l with
  | nil => simp [insertEv, List.pairwise_cons]
  | cons y ys ih =>
    rw [List.pairwise_cons] at hs
    obtain ⟨hy, hs'⟩ := hs
    by_cases h : y.2 ≤ x.2
    · rw [insertEv, if_pos h, List.pairwise_cons]
      refine ⟨?_, ih hs'⟩
      intro z hz
      rcases (mem_insertEv x z ys).mp hz with hzx | hzys
      · subst hzx; exact h
      · exact hy z hzys
    · rw [insertEv, if_neg h, List.pairwise_cons]
      refine ⟨?_, List.pairwise_cons.mpr ⟨hy, hs'⟩⟩
      intro z hz
      rcases List.mem_cons.mp hz with hzy | hzys
      · subst hzy; exact Nat.le_of_lt (Nat.lt_of_not_le h)
      · exact Nat.le_trans (Nat.le_of_lt (Nat.lt_of_not_le h)) (hy z hzys)

theorem sortByKey_sorted (l : List EvEntry) : (sortByKey l).Pairwise EvLe := by
  suffices hgen : ∀ acc : List EvEntry, acc.Pairwise EvLe →
      (l.foldl (fun acc x => insertEv x acc) acc).Pairwise EvLe by
    exact hgen [] (List.Pairwise.nil)
  induction l with
  | nil => intro acc hacc; exact hacc
  | cons y ys ih => intro acc hacc; exact ih _ (insertEv_sorted y acc hacc)

theorem insertEv_of_all_le (x : EvEntry) (l : List EvEntry)
    (h : ∀ y ∈ l, EvLe y x) : insertEv x l = l ++ [x] := by
  induction l with
  | nil => rfl
  | cons y ys ih =>
    rw [insertEv, if_pos (show y.2 ≤ x.2 from h y (List.mem_cons_self y ys))]
    rw [ih fun z hz => h z (List.mem_cons_of_mem y hz)]
    rfl

/-- A stable sort leaves an already sorted vector unchanged. -/
theorem sortByKey_of_sorted (l : List EvEntry) (hs : l.Pairwise EvLe) :
    sortByKey l = l := by
  induction l using List.reverseRecOn with
  | nil => rfl
  | append_singleton ys x ih =>
    rw [List.pairwise_append] at hs
    obtain ⟨hys, _, hcross⟩ := hs
    rw [sortByKey, List.foldl_append]
    have : List.foldl (fun acc x => insertEv x acc) [] ys = ys := by
      rw [show List.foldl (fun acc x => insertEv x acc) [] ys = sortByKey ys from rfl, ih hys]
    rw [this]
    simp only [List.foldl_cons, List.foldl_nil]
    exact insertEv_of_all_le x ys fun y hy => hcross y hy x (List.mem_singleton.mpr rfl)

theorem insertEv_takeWhile_dropWhile (x : EvEntry) (l : List EvEntry) :
    insertEv x l = l.takeWhile (fun y => decide (y.2 ≤ x.2)) ++ x ::
      l.dropWhile (fun y => decide (y.2 ≤ x.2)) := by
  induction l with
  | nil => rfl
  | cons y ys ih =>
    by_cases h : y.2 ≤ x.2
    · rw [insertEv, if_pos h, ih]
      simp [List.takeWhile_cons, List.dropWhile_cons, h]
    · rw [insertEv, if_neg h]
      simp [List.takeWhile_cons, List.dropWhile_cons, h]

/-- Operations on an `EventQueue`, for quantifying over "any sequence of push
and pop operations". -/
inductive QOp where
  | pushOp (e : Event) (t : Nat)
  | popOp

/-- Run a sequence of queue operations, left to right, from the empty queue. -/
def runOps (ops : List QOp) : EventQueue :=
  ops.foldl (fun q op => match op with
    | .pushOp e t => q.push e t
    | .popOp => (q.pop).2) EventQueue.new

/-- Every queue reachable by pushes and pops is sorted by due T-state. -/
theorem runOps_sorted (ops : List QOp) : (runOps ops).events.Pairwise EvLe := by
  suffices hgen : ∀ q : EventQueue, q.events.Pairwise EvLe →
      ((ops.foldl (fun q op => match op with
        | .pushOp e t => q.push e t
        | .popOp => (q.pop).2) q).events).Pairwise EvLe by
    exact hgen EventQueue.new List.Pairwise.nil
  induction ops with
  | nil => intro q hq; exact hq
  | cons op rest ih =>
    intro q hq
    refine ih _ ?_
    match op with
    | .pushOp e t => exact sortByKey_sorted _
    | .popOp =>
      match hevents : q.events with
      | [] => simp [EventQueue.pop, hevents]
      | x :: xs =>
        simp only [EventQueue.pop, hevents]
        rw [hevents] at hq
        exact (List.pairwise_cons.mp hq).2

/-! # Claims -/

/-! ## C1: the LD A / LD B / ADD A,B scenario -/

/-- The program of the spec's execution scenario:
`LD A,0x42; LD B,0x10; ADD A,B`. -/
def c1_program : List Nat := [0x3E, 0x42, 0x06, 0x10, 0x80]

/-- A fresh engine CPU with `c1_program` loaded at address 0. -/
def c1_loaded : Engine.Cpu :=
  { Engine.Cpu.new Engine.Memory.new with
    memory := ⟨fun x => if 0 ≤ x ∧ x < 0 + c1_program.length
      then u8 (c1_program.getD (x - 0) 0) else Engine.Memory.new.ram x⟩ }

/-- **C1** (claim: loading `[0x3E,0x42,0x06,0x10,0x80]` at address 0 of a fresh
CPU and calling `step()` three times succeeds and yields A=0x52, B=0x10, PC=5,
zero flag clear).  In the code, `Cpu::step` decodes only opcode `0x00` (NOP)
and `init_main_table` installs only NOP, so the very first `step()` call
returns `Err(InvalidOpcode(0x3E))`: the scenario cannot execute.  This
evaluates the engine at the failing input. -/
theorem c1_first_step_invalid_opcode :
    Engine.load_program (Engine.Cpu.new Engine.Memory.new) 0 c1_program =
        Except.ok c1_loaded ∧
      Engine.step c1_loaded = Except.error (EmulatorError.InvalidOpcode 0x3E) :=
  ⟨rfl, rfl⟩

/-! ## C2: P/V on 8-bit addition -/

/-- A core CPU with the accumulator set to `0x7F` and flags clear. -/
def c2_cpu : Cpu := { Cpu.new with a := 0x7F }

/-- **C2** (claim: `add_a`/`adc_a` set P/V exactly when signed overflow
occurred).  At A=0x7F, operand 0x01 (both operands with sign bit 0) the sum is
0x80 (sign bit 1) — a signed overflow — yet `update_flags_add` leaves P/V
clear: its P/V expression `(a ^ value ^ 0x80) & (a ^ result) & 0x80 == 0`
tests `== 0` where signed overflow corresponds to `!= 0` (compare
`update_flags_sub`, which uses `!= 0`).  The code therefore sets P/V exactly
when signed overflow did *not* occur. -/
theorem c2_add_a_pv_inverted :
    c2_cpu.a &&& 0x80 = 0 ∧ (0x01 : Nat) &&& 0x80 = 0 ∧
      (add_a c2_cpu 0x01).a = 0x80 ∧
      get_flag (add_a c2_cpu 0x01) FLAG_PV = false := by
  decide

/-! ## C3: the DD CB prefix sequence -/

/-- **C3** (claim: feeding `0xDD, 0xCB, 0x06` drives the prefix state
`None → Dd → DdCb` and the third byte resolves from the DD/FD+CB table with
T-states 4 + 4 + base).  The state transitions do hold, but `Decoder::decode`
dispatches `DdCb`/`FdCb` into the wildcard `_ => None` arm (there is no
DD/FD+CB table), so the third byte yields `Err(InvalidOpcode(0x06))` instead
of a resolved instruction. -/
theorem c3_ddcb_decode_invalid :
    Decoder.new.cur_pfx = PfxKind.None ∧
      (decode Decoder.new 0xDD).1.cur_pfx = PfxKind.Dd ∧
      (decode (decode Decoder.new 0xDD).1 0xCB).1.cur_pfx = PfxKind.DdCb ∧
      (decode (decode (decode Decoder.new 0xDD).1 0xCB).1 0x06).2 =
        Except.error (EmulatorError.InvalidOpcode 0x06) :=
  ⟨rfl, rfl, rfl, rfl⟩

/-! ### Projection lemmas for `ldi` and PC-only record updates -/

theorem get_hl_pc_update (cpu : Cpu) (v : Nat) : get_hl { cpu with pc := v } = get_hl cpu := rfl

theorem get_de_pc_update (cpu : Cpu) (v : Nat) : get_de { cpu with pc := v } = get_de cpu := rfl

theorem memory_pc_update (cpu : Cpu) (v : Nat) :
    ({ cpu with pc := v } : Cpu).memory = cpu.memory := rfl

theorem get_flag_pc_update (cpu : Cpu) (v m : Nat) :
    get_flag { cpu with pc := v } m = get_flag cpu m := rfl

theorem ldi_a (cpu : Cpu) : (ldi cpu).a = cpu.a := by
  simp only [ldi, set_flag_a, set_bc_a, set_de_a, set_hl_a, write_byte_a]

theorem ldi_hl (cpu : Cpu) : get_hl (ldi cpu) = wadd16 (get_hl cpu) 1 := by
  simp only [ldi, get_hl, set_flag_h, set_flag_l, set_bc_h, set_bc_l, set_de_h, set_de_l,
    set_hl_h, set_hl_l, write_byte_h, write_byte_l, u8, wadd16]
  omega

theorem ldi_de (cpu : Cpu) : get_de (ldi cpu) = wadd16 (get_de cpu) 1 := by
  simp only [ldi, get_de, set_flag_d, set_flag_e, set_bc_d, set_bc_e, set_de_d, set_de_e,
    set_hl_d, set_hl_e, write_byte_d, write_byte_e, u8, wadd16]
  omega

theorem ldi_memory (cpu : Cpu) : (ldi cpu).memory =
    fun x => if x = u16 (get_de cpu) then u8 (cpu.memory (u16 (get_hl cpu)))
             else cpu.memory x := by
  simp only [ldi, set_flag_memory, set_bc_memory, set_de_memory, set_hl_memory,
    write_byte_memory, read_byte, set_hl_d, set_hl_e, write_byte_d, write_byte_e, get_de]

theorem ldi_pv (cpu : Cpu) :
    get_flag (ldi cpu) FLAG_PV = (get_bc (ldi cpu) != 0) := by
  conv_rhs => rw [ldi]
  simp only [ldi]
  rw [get_flag_set_flag_other _ FLAG_X FLAG_PV _ (by decide) (by decide),
    get_flag_set_flag_other _ FLAG_Y FLAG_PV _ (by decide) (by decide),
    get_flag_set_flag_self _ FLAG_PV FLAG_PV _ (by decide) (by decide) (by decide)]
  simp only [get_bc, set_flag_b, set_flag_c]

/-! ## C10: LDIR termination and transfer count -/

/-- Helper: when BC holds `n + 1` (a representable 16-bit count), the LDIR
loop performs exactly `n + 1` transfers. -/
theorem ldirCount_aux (n : Nat) : ∀ cpu : Cpu, get_bc cpu = n + 1 → n < 65535 →
    ldirCount cpu = n + 1 := by
  induction n with
  | zero =>
    intro cpu hbc _
    rw [ldirCount, dif_pos (by rw [get_bc_ldi, hbc]; decide)]
  | succ m ih =>
    intro cpu hbc hlt
    have h1 : get_bc (ldi cpu) = m + 1 := by
      rw [get_bc_ldi, hbc]
      simp only [wsub16]
      omega
    rw [ldirCount, dif_neg (by rw [h1]; omega)]
    rw [ih { ldi cpu with pc := wsub16 (ldi cpu).pc 2 } (by rw [get_bc_pc_update]; exact h1)
      (by omega)]
    omega

/-- Helper: the LDIR loop always drives BC to 0. -/
theorem get_bc_ldir (cpu : Cpu) : get_bc (ldir cpu) = 0 := by
  induction cpu using ldir.induct with
  | case1 cpu h => rw [ldir, dif_pos h]; exact h
  | case2 cpu h ih => rw [ldir, dif_neg h]; exact ih

/-- **C10**: `ldir` terminates on every start state (in this embedding it is a
total function, defined by well-founded recursion on the loop measure); it
performs exactly `BC` single-step transfers when the initial BC is nonzero,
and `65536` transfers when BC = 0 (BC wraps to 0xFFFF on the first step);
afterwards BC is 0.  (`b < 256` and `c < 256` restate the `u8` register
type.) -/
theorem c10_ldir_transfer_count (cpu : Cpu) (hb : cpu.b < 256) (hc : cpu.c < 256) :
    ldirCount cpu = (if get_bc cpu = 0 then 65536 else get_bc cpu) ∧
      get_bc (ldir cpu) = 0 := by
  refine ⟨?_, get_bc_ldir cpu⟩
  by_cases h0 : get_bc cpu = 0
  · rw [if_pos h0]
    have h1 : get_bc (ldi cpu) = 65535 := by rw [get_bc_ldi, h0]; decide
    rw [ldirCount, dif_neg (by rw [h1]; omega)]
    rw [ldirCount_aux 65534 { ldi cpu with pc := wsub16 (ldi cpu).pc 2 }
      (by rw [get_bc_pc_update]; exact h1) (by omega)]
  · rw [if_neg h0]
    have hlt : get_bc cpu < 65536 := by
      simp only [get_bc]
      omega
    obtain ⟨m, hm⟩ : ∃ m, get_bc cpu = m + 1 := ⟨get_bc cpu - 1, by omega⟩
    rw [hm, ldirCount_aux m cpu hm (by omega)]

/-- A start state with BC = 3 for the C10 witness. -/
def c10_cpu : Cpu := { Cpu.new with c := 3 }

/-- Witness for C10 at BC = 3. -/
theorem c10_ldir_transfer_count_witness :
    ldirCount c10_cpu = (if get_bc c10_cpu = 0 then 65536 else get_bc c10_cpu) ∧
      get_bc (ldir c10_cpu) = 0 :=
  c10_ldir_transfer_count c10_cpu (by decide) (by decide)

/-! ## C5: LDIR with BC = 3 -/

/-- Pointwise form of `ldi_memory`. -/
theorem read_after_ldi (cpu : Cpu) (x : Nat) :
    (ldi cpu).memory x =
      if x = u16 (get_de cpu) then u8 (cpu.memory (u16 (get_hl cpu)))
      else cpu.memory x := by
  rw [ldi_memory]

/-- **C5**: executing LDIR with initial BC=3 copies exactly the 3 bytes at
(HL), (HL+1), (HL+2) to (DE), (DE+1), (DE+2), and afterwards BC=0, P/V is
clear, and HL and DE are each advanced by 3 modulo 2^16.  The register-range
hypotheses restate the `u8` field types, `hmem` the byte-valued `Vec<u8>`
memory, and `hdisj` says the 3-byte source and destination windows do not
overlap (with overlap the sequential per-step copy reads bytes the loop has
already overwritten). -/
theorem c5_ldir_bc3 (cpu : Cpu) (hbc : get_bc cpu = 3)
    (hh : cpu.h < 256) (hl : cpu.l < 256) (hd : cpu.d < 256) (he : cpu.e < 256)
    (hmem : ∀ x, cpu.memory x < 256)
    (hdisj : ∀ i < 3, ∀ j < 3,
      (get_hl cpu + i) % 65536 ≠ (get_de cpu + j) % 65536) :
    get_bc (ldir cpu) = 0 ∧
      get_flag (ldir cpu) FLAG_PV = false ∧
      get_hl (ldir cpu) = (get_hl cpu + 3) % 65536 ∧
      get_de (ldir cpu) = (get_de cpu + 3) % 65536 ∧
      ∀ i < 3, (ldir cpu).memory ((get_de cpu + i) % 65536) =
        cpu.memory ((get_hl cpu + i) % 65536) := by
  have hhl16 : get_hl cpu < 65536 := by simp only [get_hl]; omega
  have hde16 : get_de cpu < 65536 := by simp only [get_de]; omega
  have hbc1 : get_bc (ldi cpu) = 2 := by rw [get_bc_ldi, hbc]; decide
  have hbcA1 : get_bc { ldi cpu with pc := wsub16 (ldi cpu).pc 2 } = 2 := by
    rw [get_bc_pc_update]; exact hbc1
  have hbc2 : get_bc (ldi { ldi cpu with pc := wsub16 (ldi cpu).pc 2 }) = 1 := by
    rw [get_bc_ldi, hbcA1]; decide
  have hbcA2 : get_bc { ldi { ldi cpu with pc := wsub16 (ldi cpu).pc 2 } with
      pc := wsub16 (ldi { ldi cpu with pc := wsub16 (ldi cpu).pc 2 }).pc 2 } = 1 := by
    rw [get_bc_pc_update]; exact hbc2
  have hbc3 : get_bc (ldi { ldi { ldi cpu with pc := wsub16 (ldi cpu).pc 2 } with
      pc := wsub16 (ldi { ldi cpu with pc := wsub16 (ldi cpu).pc 2 }).pc 2 }) = 0 := by
    rw [get_bc_ldi, hbcA2]; decide
  have hldir : ldir cpu = ldi { ldi { ldi cpu with pc := wsub16 (ldi cpu).pc 2 } with
      pc := wsub16 (ldi { ldi cpu with pc := wsub16 (ldi cpu).pc 2 }).pc 2 } := by
    rw [ldir, dif_neg (by rw [hbc1]; omega),
      ldir, dif_neg (by rw [hbc2]; omega),
      ldir, dif_pos hbc3]
  have hhlA1 : get_hl { ldi cpu with pc := wsub16 (ldi cpu).pc 2 } =
      wadd16 (get_hl cpu) 1 := by rw [get_hl_pc_update, ldi_hl]
  have hhlA2 : get_hl { ldi { ldi cpu with pc := wsub16 (ldi cpu).pc 2 } with
      pc := wsub16 (ldi { ldi cpu with pc := wsub16 (ldi cpu).pc 2 }).pc 2 } =
      wadd16 (wadd16 (get_hl cpu) 1) 1 := by rw [get_hl_pc_update, ldi_hl, hhlA1]
  have hdeA1 : get_de { ldi cpu with pc := wsub16 (ldi cpu).pc 2 } =
      wadd16 (get_de cpu) 1 := by rw [get_de_pc_update, ldi_de]
  have hdeA2 : get_de { ldi { ldi cpu with pc := wsub16 (ldi cpu).pc 2 } with
      pc := wsub16 (ldi { ldi cpu with pc := wsub16 (ldi cpu).pc 2 }).pc 2 } =
      wadd16 (wadd16 (get_de cpu) 1) 1 := by rw [get_de_pc_update, ldi_de, hdeA1]
  refine ⟨?_, ?_, ?_, ?_, ?_⟩
  · rw [hldir]; exact hbc3
  · rw [hldir, ldi_pv, hbc3]; decide
  · rw [hldir, ldi_hl, hhlA2]
    simp only [wadd16]
    omega
  · rw [hldir, ldi_de, hdeA2]
    simp only [wadd16]
    omega
  · intro i hi
    have d00 := hdisj 0 (by omega) 0 (by omega)
    have d10 := hdisj 1 (by omega) 0 (by omega)
    have d20 := hdisj 2 (by omega) 0 (by omega)
    have d11 := hdisj 1 (by omega) 1 (by omega)
    have d21 := hdisj 2 (by omega) 1 (by omega)
    interval_cases i
    · rw [hldir, read_after_ldi,
        if_neg (by rw [hdeA2]; simp only [u16, wadd16]; omega),
        memory_pc_update, read_after_ldi,
        if_neg (by rw [hdeA1]; simp only [u16, wadd16]; omega),
        memory_pc_update, read_after_ldi,
        if_pos (show (get_de cpu + 0) % 65536 = u16 (get_de cpu) by
          simp only [u16]; omega),
        show u16 (get_hl cpu) = (get_hl cpu + 0) % 65536 by simp only [u16]; omega]
      exact Nat.mod_eq_of_lt (hmem _)
    · rw [hldir, read_after_ldi,
        if_neg (by rw [hdeA2]; simp only [u16, wadd16]; omega),
        memory_pc_update, read_after_ldi,
        if_pos (by rw [hdeA1]; simp only [u16, wadd16]; omega),
        hhlA1, memory_pc_update, read_after_ldi,
        if_neg (by simp only [u16, wadd16]; omega),
        show u16 (wadd16 (get_hl cpu) 1) = (get_hl cpu + 1) % 65536 by
          simp only [u16, wadd16]; omega]
      exact Nat.mod_eq_of_lt (hmem _)
    · rw [hldir, read_after_ldi,
        if_pos (by rw [hdeA2]; simp only [u16, wadd16]; omega),
        hhlA2, memory_pc_update, read_after_ldi,
        if_neg (by rw [hdeA1]; simp only [u16, wadd16]; omega),
        memory_pc_update, read_after_ldi,
        if_neg (by simp only [u16, wadd16]; omega),
        show u16 (wadd16 (wadd16 (get_hl cpu) 1) 1) = (get_hl cpu + 2) % 65536 by
          simp only [u16, wadd16]; omega]
      exact Nat.mod_eq_of_lt (hmem _)

/-- A concrete start state for C5: BC=3, HL=0x1000, DE=0x2000, memory holding
0x42, 0x43, 0x44 at 0x1000–0x1002. -/
def c5_cpu : Cpu :=
  { Cpu.new with
    c := 3
    h := 0x10
    d := 0x20
    memory := fun x => if x = 0x1000 then 0x42 else if x = 0x1001 then 0x43
      else if x = 0x1002 then 0x44 else 0 }

/-- Witness for C5 at `c5_cpu`. -/
theorem c5_ldir_bc3_witness :
    get_bc (ldir c5_cpu) = 0 ∧
      get_flag (ldir c5_cpu) FLAG_PV = false ∧
      get_hl (ldir c5_cpu) = (get_hl c5_cpu + 3) % 65536 ∧
      get_de (ldir c5_cpu) = (get_de c5_cpu + 3) % 65536 ∧
      ∀ i < 3, (ldir c5_cpu).memory ((get_de c5_cpu + i) % 65536) =
        c5_cpu.memory ((get_hl c5_cpu + i) % 65536) :=
  c5_ldir_bc3 c5_cpu rfl (by decide) (by decide) (by decide) (by decide)
    (fun x => by simp only [c5_cpu]; split_ifs <;> decide)
    (by decide)

/-! ## C4: interrupt acceptance during HALT -/

/-- **C4**: for a CPU with `halted=true`, `iff1=true` and interrupt mode 1,
`handle_interrupt()` clears `halted`, advances PC by 1 from its pre-halt
value, pushes that advanced PC onto the stack with SP decremented by 2, sets
PC to 0x0038, and clears IFF1 and IFF2.  (`pc < 65536` and `sp < 65536`
restate the `u16` type of those registers.) -/
theorem c4_handle_interrupt_halted_mode1 (cpu : Cpu)
    (hhalt : cpu.halted = true) (hiff : cpu.iff1 = true) (hmode : cpu.interrupt_mode = 1)
    (hpc : cpu.pc < 65536) (hsp : cpu.sp < 65536) :
    ∃ cpu', handle_interrupt cpu = some cpu' ∧
      cpu'.halted = false ∧
      cpu'.pc = 0x0038 ∧
      cpu'.sp = (cpu.sp + 65534) % 65536 ∧
      read_word cpu' cpu'.sp = (cpu.pc + 1) % 65536 ∧
      cpu'.iff1 = false ∧ cpu'.iff2 = false := by
  obtain ⟨a, b, c, d, e, h, i, l, f, pc, sp, ix, iy, dir, aa, ba, ca, da, ea, ha, la, fa,
    i1, i2, im, mem, hal, imode⟩ := cpu
  simp only at hhalt hiff hmode hpc hsp
  subst hhalt hiff hmode
  refine ⟨_, rfl, rfl, rfl, ?_, ?_, rfl, rfl⟩
  · simp [handle_interrupt_mode1, write_word, write_byte, wadd16, wsub16]
  · simp [handle_interrupt_mode1, read_word, read_byte, write_word, write_byte,
      u16, u8, wadd16, wsub16]
    split_ifs <;> omega

/-- A concrete state for C4: halted, interrupts enabled, mode 1, PC=0x1234,
SP=0x2000. -/
def c4_cpu : Cpu :=
  { Cpu.new with
    halted := true
    iff1 := true
    interrupt_mode := 1
    pc := 0x1234
    sp := 0x2000 }

/-- Witness for C4 at `c4_cpu`. -/
theorem c4_handle_interrupt_halted_mode1_witness :
    ∃ cpu', handle_interrupt c4_cpu = some cpu' ∧
      cpu'.halted = false ∧
      cpu'.pc = 0x0038 ∧
      cpu'.sp = (c4_cpu.sp + 65534) % 65536 ∧
      read_word cpu' cpu'.sp = (c4_cpu.pc + 1) % 65536 ∧
      cpu'.iff1 = false ∧ cpu'.iff2 = false :=
  c4_handle_interrupt_halted_mode1 c4_cpu rfl rfl rfl (by decide) (by decide)

/-! ## C7: INC then DEC -/

@[simp] theorem get_flag_update_a (cpu : Cpu) (v m : Nat) :
    get_flag { cpu with a := v } m = get_flag cpu m := rfl

/-- **C7**: for every byte `v`, `dec` applied to the value returned by `inc`
returns `v` again; and `inc 0x7F` returns `0x80` with S=1, Z=0, H=1, PV=1,
N=0. -/
theorem c7_inc_dec_roundtrip (cpu : Cpu) (v : Nat) (hv : v < 256) :
    (dec (inc cpu v).1 (inc cpu v).2).2 = v ∧
      (inc cpu 0x7F).2 = 0x80 ∧
      get_flag (inc cpu 0x7F).1 FLAG_S = true ∧
      get_flag (inc cpu 0x7F).1 FLAG_Z = false ∧
      get_flag (inc cpu 0x7F).1 FLAG_H = true ∧
      get_flag (inc cpu 0x7F).1 FLAG_PV = true ∧
      get_flag (inc cpu 0x7F).1 FLAG_N = false := by
  refine ⟨?_, rfl, ?_, ?_, ?_, ?_, ?_⟩
  · show wsub8 (wadd8 v 1) 1 = v
    simp only [wadd8, wsub8]
    omega
  · simp only [inc]
    rw [get_flag_set_flag_other _ FLAG_X FLAG_S _ (by decide) (by decide),
      get_flag_set_flag_other _ FLAG_Y FLAG_S _ (by decide) (by decide),
      get_flag_set_flag_other _ FLAG_N FLAG_S _ (by decide) (by decide),
      get_flag_set_flag_other _ FLAG_PV FLAG_S _ (by decide) (by decide),
      get_flag_set_flag_other _ FLAG_H FLAG_S _ (by decide) (by decide),
      get_flag_set_flag_other _ FLAG_Z FLAG_S _ (by decide) (by decide),
      get_flag_set_flag_self _ FLAG_S FLAG_S _ (by decide) (by decide) (by decide)]
    decide
  · simp only [inc]
    rw [get_flag_set_flag_other _ FLAG_X FLAG_Z _ (by decide) (by decide),
      get_flag_set_flag_other _ FLAG_Y FLAG_Z _ (by decide) (by decide),
      get_flag_set_flag_other _ FLAG_N FLAG_Z _ (by decide) (by decide),
      get_flag_set_flag_other _ FLAG_PV FLAG_Z _ (by decide) (by decide),
      get_flag_set_flag_other _ FLAG_H FLAG_Z _ (by decide) (by decide),
      get_flag_set_flag_self _ FLAG_Z FLAG_Z _ (by decide) (by decide) (by decide)]
    decide
  · simp only [inc]
    rw [get_flag_set_flag_other _ FLAG_X FLAG_H _ (by decide) (by decide),
      get_flag_set_flag_other _ FLAG_Y FLAG_H _ (by decide) (by decide),
      get_flag_set_flag_other _ FLAG_N FLAG_H _ (by decide) (by decide),
      get_flag_set_flag_other _ FLAG_PV FLAG_H _ (by decide) (by decide),
      get_flag_set_flag_self _ FLAG_H FLAG_H _ (by decide) (by decide) (by decide)]
    decide
  · simp only [inc]
    rw [get_flag_set_flag_other _ FLAG_X FLAG_PV _ (by decide) (by decide),
      get_flag_set_flag_other _ FLAG_Y FLAG_PV _ (by decide) (by decide),
      get_flag_set_flag_other _ FLAG_N FLAG_PV _ (by decide) (by decide),
      get_flag_set_flag_self _ FLAG_PV FLAG_PV _ (by decide) (by decide) (by decide)]
    decide
  · simp only [inc]
    rw [get_flag_set_flag_other _ FLAG_X FLAG_N _ (by decide) (by decide),
      get_flag_set_flag_other _ FLAG_Y FLAG_N _ (by decide) (by decide),
      get_flag_set_flag_self _ FLAG_N FLAG_N _ (by decide) (by decide) (by decide)]

/-- Witness for C7 at `v = 5` on a fresh CPU. -/
theorem c7_inc_dec_roundtrip_witness :
    (dec (inc Cpu.new 5).1 (inc Cpu.new 5).2).2 = 5 ∧
      (inc Cpu.new 0x7F).2 = 0x80 ∧
      get_flag (inc Cpu.new 0x7F).1 FLAG_S = true ∧
      get_flag (inc Cpu.new 0x7F).1 FLAG_Z = false ∧
      get_flag (inc Cpu.new 0x7F).1 FLAG_H = true ∧
      get_flag (inc Cpu.new 0x7F).1 FLAG_PV = true ∧
      get_flag (inc Cpu.new 0x7F).1 FLAG_N = false :=
  c7_inc_dec_roundtrip Cpu.new 5 (by decide)

/-! ## C6: DAA -/

/-- **C6**: for every starting state, `daa` leaves H clear and sets C exactly
when a `0x60` adjustment was applied — the source applies the `0x60`
adjustment exactly when the carry flag was set or `A > 0x99`, and sets C as
`adjust >= 0x60`; and from A=0x9A with N=H=C=0, `daa` yields A=0x00 with the
carry flag set. -/
theorem c6_daa_h_clear_c_adjust (cpu : Cpu) :
    (get_flag (daa cpu) FLAG_H = false ∧
      get_flag (daa cpu) FLAG_C = (get_flag cpu FLAG_C || decide (0x99 < cpu.a))) ∧
    (cpu.a = 0x9A → get_flag cpu FLAG_N = false → get_flag cpu FLAG_H = false →
      get_flag cpu FLAG_C = false →
      (daa cpu).a = 0x00 ∧ get_flag (daa cpu) FLAG_C = true) := by
  have hCmain : get_flag (daa cpu) FLAG_C =
      (get_flag cpu FLAG_C || decide (0x99 < cpu.a)) := by
    simp only [daa, get_flag_update_a]
    rw [get_flag_set_flag_other _ FLAG_X FLAG_C _ (by decide) (by decide),
      get_flag_set_flag_other _ FLAG_Y FLAG_C _ (by decide) (by decide),
      get_flag_set_flag_self _ FLAG_C FLAG_C _ (by decide) (by decide) (by decide)]
    cases hC : get_flag cpu FLAG_C <;> cases hH : get_flag cpu FLAG_H <;>
      by_cases h9 : (9 : Nat) < cpu.a % 16 <;> by_cases h99 : (0x99 : Nat) < cpu.a <;>
        simp [h9, h99]
  refine ⟨⟨?_, hCmain⟩, ?_⟩
  · simp only [daa, get_flag_update_a]
    rw [get_flag_set_flag_other _ FLAG_X FLAG_H _ (by decide) (by decide),
      get_flag_set_flag_other _ FLAG_Y FLAG_H _ (by decide) (by decide),
      get_flag_set_flag_other _ FLAG_C FLAG_H _ (by decide) (by decide),
      get_flag_set_flag_other _ FLAG_PV FLAG_H _ (by decide) (by decide),
      get_flag_set_flag_self _ FLAG_H FLAG_H _ (by decide) (by decide) (by decide)]
  · intro ha hN hH hC
    refine ⟨?_, ?_⟩
    · simp [daa, ha, hN, hH, hC, wadd8]
    · rw [hCmain, hC, ha]
      decide

/-- The DAA scenario start state: A=0x9A, flags all clear. -/
def c6_cpu : Cpu := { Cpu.new with a := 0x9A }

/-- Witness for C6 at `c6_cpu` (A=0x9A, N=H=C=0). -/
theorem c6_daa_h_clear_c_adjust_witness :
    get_flag (daa c6_cpu) FLAG_H = false ∧
      (daa c6_cpu).a = 0x00 ∧ get_flag (daa c6_cpu) FLAG_C = true :=
  ⟨(c6_daa_h_clear_c_adjust c6_cpu).1.1,
    (c6_daa_h_clear_c_adjust c6_cpu).2 rfl rfl rfl rfl⟩

/-! ## C9: event queue ordering -/

/-- **C9**: after any sequence of `push`/`pop` operations on an `EventQueue`
(run from the empty queue), (a) `peek` returns an entry whose due-cycle is
minimal over the whole queue, (b) `pop` returns exactly the entry `peek`
returns, and (c) `push` places a new entry after every present entry with
due-cycle `≤ t` and before every other entry.  Since `pop` removes from the
front, (c) is precisely FIFO resolution among entries with equal due-cycle:
an earlier-inserted entry with the same due-cycle sits closer to the front
than a later-inserted one and is returned first. -/
theorem c9_event_queue_earliest_fifo (ops : List QOp) (e : Event) (t : Nat) :
    (∀ hd ∈ (runOps ops).peek, ∀ z ∈ (runOps ops).events, hd.2 ≤ z.2) ∧
      ((runOps ops).pop).1 = (runOps ops).peek ∧
      ((runOps ops).push e t).events =
        (runOps ops).events.takeWhile (fun y => decide (y.2 ≤ t)) ++ (e, t) ::
          (runOps ops).events.dropWhile (fun y => decide (y.2 ≤ t)) := by
  have hsorted := runOps_sorted ops
  refine ⟨?_, ?_, ?_⟩
  · intro hd hhd z hz
    match hevents : (runOps ops).events with
    | [] => rw [EventQueue.peek, hevents] at hhd; simp at hhd
    | x :: xs =>
      rw [EventQueue.peek, hevents] at hhd
      simp only [List.head?_cons, Option.mem_def, Option.some.injEq] at hhd
      subst hhd
      rw [hevents] at hz hsorted
      rcases List.mem_cons.mp hz with hzx | hzxs
      · subst hzx; exact Nat.le_refl _
      · exact (List.pairwise_cons.mp hsorted).1 z hzxs
  · match hevents : (runOps ops).events with
    | [] => simp [EventQueue.pop, EventQueue.peek, hevents]
    | x :: xs => simp [EventQueue.pop, EventQueue.peek, hevents]
  · show (EventQueue.push (runOps ops) e t).events = _
    rw [EventQueue.push]
    show sortByKey ((runOps ops).events ++ [(e, t)]) = _
    rw [sortByKey, List.foldl_append]
    rw [show List.foldl (fun acc x => insertEv x acc) [] (runOps ops).events =
      sortByKey (runOps ops).events from rfl]
    rw [sortByKey_of_sorted _ hsorted]
    simp only [List.foldl_cons, List.foldl_nil]
    exact insertEv_takeWhile_dropWhile (e, t) (runOps ops).events

/-- Witness for C9: a concrete operation sequence with a due-cycle tie. -/
theorem c9_event_queue_earliest_fifo_witness :
    (∀ hd ∈ (runOps [QOp.pushOp Event.Interrupt 5, QOp.pushOp Event.Timer 3,
        QOp.popOp]).peek,
      ∀ z ∈ (runOps [QOp.pushOp Event.Interrupt 5, QOp.pushOp Event.Timer 3,
        QOp.popOp]).events, hd.2 ≤ z.2) ∧
      ((runOps [QOp.pushOp Event.Interrupt 5, QOp.pushOp Event.Timer 3,
        QOp.popOp]).pop).1 =
        (runOps [QOp.pushOp Event.Interrupt 5, QOp.pushOp Event.Timer 3,
          QOp.popOp]).peek ∧
      ((runOps [QOp.pushOp Event.Interrupt 5, QOp.pushOp Event.Timer 3,
          QOp.popOp]).push Event.Timer 5).events =
        (runOps [QOp.pushOp Event.Interrupt 5, QOp.pushOp Event.Timer 3,
          QOp.popOp]).events.takeWhile (fun y => decide (y.2 ≤ 5)) ++ (Event.Timer, 5) ::
          (runOps [QOp.pushOp Event.Interrupt 5, QOp.pushOp Event.Timer 3,
            QOp.popOp]).events.dropWhile (fun y => decide (y.2 ≤ 5)) :=
  c9_event_queue_earliest_fifo
    [QOp.pushOp Event.Interrupt 5, QOp.pushOp Event.Timer 3, QOp.popOp] Event.Timer 5

/-! ## C8: accumulator rotates and the S/Z/PV flags -/

/-- A core CPU with A=0x80 and the S and PV flags set (F=0x84). -/
def c8_cpu : Cpu := { Cpu.new with a := 0x80, f := 0x84 }

/-- **C8** (claim: `rlca`/`rrca`/`rla`/`rra` leave the S, Z and PV bits of F
unchanged).  `rlca` delegates to `rlc`, whose `update_rotation_flags`
overwrites S, Z and PV from the rotated result: starting from S=1, PV=1
(F=0x84), after `rlca` both S and PV read 0. -/
theorem c8_rlca_clobbers_s_pv :
    get_flag c8_cpu FLAG_S = true ∧ get_flag c8_cpu FLAG_PV = true ∧
      get_flag (rlca c8_cpu) FLAG_S = false ∧
      get_flag (rlca c8_cpu) FLAG_PV = false := by
  decide

end Z80
